import Mathlib

/-!
Verification of the Korrektly ts-sdk documentation-indexing pipeline.

JavaScript strings are modelled as `List Char`; JS numbers that carry
weights are modelled as `Rat`.  Pure library functions from
`packages/vitepress/src/utils.ts`, `markdown.ts`, `openapi.ts`, the CLI
driver in `markdown.ts` (dedup / batching / retry loop) and the SDK
client error path in `packages/sdk/src/index.ts` are embedded as
executable Lean definitions.  External effectful collaborators (the YAML
parser, the `marked` renderer + `linkedom` DOM parse, `new URL`
validation, `pluralize`, the network) are passed in as explicit
parameters or pre-parsed values, exactly at the boundary where the
source consumes their results.
-/

set_option autoImplicit false

namespace Korrektly

/-- JS strings, modelled as lists of characters. -/
abbrev JStr := List Char

/-- The JS regex `\s` class (ASCII part; the pipeline feeds it markdown /
HTML text where only these occur): space, tab, LF, CR, VT, FF. -/
def isJsWs (c : Char) : Bool :=
  c.toNat = 32 || c.toNat = 9 || c.toNat = 10 || c.toNat = 13 ||
    c.toNat = 11 || c.toNat = 12

/-- One pass of `String.prototype.replace(/p+/g, rep)` for a character
class `p`: every maximal run of characters satisfying `p` becomes the
single character `rep`.  The boolean records whether the scan is
currently inside a run. -/
def collapseRunsAux (p : Char → Bool) (rep : Char) : Bool → JStr → JStr
  | _, [] => []
  | inRun, c :: cs =>
    if p c then
      if inRun then collapseRunsAux p rep true cs
      else rep :: collapseRunsAux p rep true cs
    else c :: collapseRunsAux p rep false cs

def collapseRuns (p : Char → Bool) (rep : Char) (s : JStr) : JStr :=
  collapseRunsAux p rep false s

/-- `String.prototype.trim()`. -/
def jsTrim (s : JStr) : JStr :=
  ((s.dropWhile isJsWs).reverse.dropWhile isJsWs).reverse

/-- `utils.ts` `cleanText`:
`text.replace(/\s+/g, " ").replace(/\n+/g, " ").trim()`. -/
def cleanText (text : JStr) : JStr :=
  jsTrim (collapseRuns (fun c => c = '\n') ' ' (collapseRuns isJsWs ' ' text))

/-- Character class kept by `replace(/[^a-zA-Z0-9-_/]/g, "")`, as code
point ranges. -/
def isIdKeep (c : Char) : Bool :=
  (97 ≤ c.toNat && c.toNat ≤ 122) || (65 ≤ c.toNat && c.toNat ≤ 90) ||
    (48 ≤ c.toNat && c.toNat ≤ 57) || c = '-' || c = '_' || c = '/'

/-- The character pipeline of `generateTrackingId` after the join:
`.replace(/\s+/g, "-").replace(/[^a-zA-Z0-9-_/]/g, "").toLowerCase()`. -/
def gtidNormalize (s : JStr) : JStr :=
  ((collapseRuns isJsWs '-' s).filter isIdKeep).map Char.toLower

/-- `utils.ts` `generateTrackingId(...parts)`:
`parts.filter(Boolean).join("-")` followed by `gtidNormalize`. -/
def generateTrackingId (parts : List JStr) : JStr :=
  gtidNormalize (List.intercalate ['-'] (parts.filter (fun p => p ≠ [])))

/-- `replace(/\.mdx?$/, "")`: strip one trailing `.mdx` or `.md`. -/
def removeMdExt (p : JStr) : JStr :=
  if ['.', 'm', 'd', 'x'].isSuffixOf p then p.take (p.length - 4)
  else if ['.', 'm', 'd'].isSuffixOf p then p.take (p.length - 3)
  else p

/-- `String.prototype.split(sep)` for a single-character separator. -/
def splitOnChar (sep : Char) : JStr → List JStr
  | [] => [[]]
  | c :: cs =>
    match splitOnChar sep cs with
    | [] => [[]]
    | s :: ss => if c = sep then [] :: s :: ss else (c :: s) :: ss

/-- `utils.ts` `extractHierarchy(path)`. -/
def extractHierarchy (path : JStr) : List JStr :=
  (splitOnChar '/' (removeMdExt path)).filter (fun x => x ≠ [] && x ≠ ['.'])

/-- Locate the first occurrence of `sep` inside a string: the part
before and the part after. -/
def findSep (sep : JStr) : JStr → Option (JStr × JStr)
  | [] => none
  | c :: cs =>
    if sep.isPrefixOf (c :: cs) then some ([], (c :: cs).drop sep.length)
    else
      match findSep sep cs with
      | none => none
      | some (pre, post) => some (c :: pre, post)

def jsSplitGo (sep : JStr) : Nat → JStr → List JStr
  | 0, s => [s]
  | fuel + 1, s =>
    match findSep sep s with
    | none => [s]
    | some (pre, post) => pre :: jsSplitGo sep fuel post

/-- `String.prototype.split(sep)` for a non-empty literal separator:
leftmost, non-overlapping matches.  The fuel `s.length + 1` suffices
because every match consumes at least one character. -/
def jsSplit (sep s : JStr) : List JStr := jsSplitGo sep (s.length + 1) s

/-- Truthiness of an optional JS string: `undefined` and `""` are falsy. -/
def optTruthy : Option JStr → Bool
  | none => false
  | some s => s ≠ []

/-- The value behind an optional JS string (`[]` for `undefined`; the
source only reads the value under a truthiness guard). -/
def optVal : Option JStr → JStr
  | none => []
  | some s => s

/-- The recognized frontmatter keys (`markdown.ts` `interface
Frontmatter`); `none` models an absent key, `some []` a present empty
string (present for `??`, falsy for `if`). -/
structure Frontmatter where
  title : Option JStr := none
  subtitle : Option JStr := none
  description : Option JStr := none
  slug : Option JStr := none
  weight : Option Rat := none
deriving DecidableEq

def emptyFrontmatter : Frontmatter := {}

/-- `markdown.ts` `parseFrontmatter`.  The external YAML parser (`yaml`
package) is passed in as `yamlParse`; `none` models a parse throw. -/
def parseFrontmatter (yamlParse : JStr → Option Frontmatter)
    (fileContent : JStr) : Frontmatter × JStr :=
  let parts := jsSplit "---".toList fileContent
  if 3 ≤ parts.length then
    let frontmatterStr := jsTrim (parts.getD 1 [])
    let content := jsTrim (List.intercalate "---".toList (parts.drop 2))
    match yamlParse frontmatterStr with
    | some fm => (fm, content)
    | none => (emptyFrontmatter, fileContent)
  else (emptyFrontmatter, fileContent)

/-- One top-level element of the parsed HTML body as exposed by
linkedom: its tag name and its `textContent`. -/
structure DomElement where
  tagName : JStr
  textContent : JStr
deriving DecidableEq

/-- The regex `/^H[1-6]$/i` applied to a tag name. -/
def isHeadingTag : JStr → Bool
  | [c1, c2] => (c1 = 'H' || c1 = 'h') && ('1' ≤ c2 && c2 ≤ '6')
  | _ => false

/-- `parseInt(element.tagName.substring(1), 10)` on a heading tag name:
the value of the digit run after the tag letter. -/
def headingLevelOf (t : JStr) : Nat :=
  ((t.drop 1).takeWhile Char.isDigit).foldl
    (fun n c => 10 * n + (c.toNat - '0'.toNat)) 0

structure HeadingSection where
  heading : JStr
  body : JStr
  level : Nat
deriving DecidableEq

/-- `currentBody += (currentBody ? "\n" : "") + element.textContent`. -/
def appendBody (b t : JStr) : JStr :=
  b ++ (if b = [] then [] else ['\n']) ++ t

/-- `if (currentHeading || currentBody) sections.push({...})`. -/
def optFlush (curH curB : JStr) (curL : Nat) : List HeadingSection :=
  if curH ≠ [] ∨ curB ≠ [] then [⟨curH, cleanText curB, curL⟩] else []

/-- The element loop of `markdown.ts` `splitIntoSections`. -/
def splitLoop : List DomElement → JStr → JStr → Nat → List HeadingSection
  | [], curH, curB, curL => optFlush curH curB curL
  | e :: rest, curH, curB, curL =>
    if isHeadingTag e.tagName then
      optFlush curH curB curL ++
        splitLoop rest (cleanText e.textContent) [] (headingLevelOf e.tagName)
    else
      splitLoop rest curH (appendBody curB e.textContent) curL

/-- `markdown.ts` `splitIntoSections`, taking as input the top-level
body children that linkedom exposes for
`<!DOCTYPE html><html><body>${html}</body></html>`. -/
def splitIntoSections (elems : List DomElement) : List HeadingSection :=
  (splitLoop elems [] [] 0).filter (fun s => s.heading ≠ [])

/-- A metadata value (`string | number | boolean | string[]`; the
pipeline only ever stores strings and string arrays). -/
inductive MetaVal where
  | str (s : JStr)
  | strList (l : List JStr)
deriving DecidableEq

/-- A `ChunkInput` as assembled by the pipeline (`sdk/src/types.ts`). -/
structure Chunk where
  chunk_html : JStr
  tracking_id : JStr
  source_url : JStr
  tag_set : List JStr
  metadata : List (JStr × MetaVal)
  semantic_content : JStr
  fulltext_content : JStr
  weight : Option Rat
  refresh_on_duplicate : Bool
  group_tracking_ids : List JStr
deriving DecidableEq

/-- `replace(/^(\.\.(\/|\\))+/, "")`. -/
def stripLeadingDotDots : JStr → JStr
  | '.' :: '.' :: '/' :: rest => stripLeadingDotDots rest
  | '.' :: '.' :: '\\' :: rest => stripLeadingDotDots rest
  | l => l

/-- `replace(/^\.\//, "")`. -/
def stripLeadingDotSlash : JStr → JStr
  | '.' :: '/' :: rest => rest
  | l => l

/-- `slug.replace(/^\/+/, "")`. -/
def stripLeadingSlashes (s : JStr) : JStr := s.dropWhile (fun c => c = '/')

/-- The path cleanup of `extractChunksFromMarkdown` applied to the
already-`normalize`d relative path (lines 163–166). -/
def mdRelativePath (relPath0 : JStr) : JStr :=
  stripLeadingDotSlash (stripLeadingDotDots relPath0)

/-- `frontmatter.slug ?? relativePath.replace(/\.mdx?$/, "")`. -/
def mdSlug (fm : Frontmatter) (relativePath : JStr) : JStr :=
  match fm.slug with
  | some s => s
  | none => removeMdExt relativePath

/-- `const baseUrl = /${cleanSlug}` and
`rootUrl ? rootUrl + baseUrl : baseUrl`. -/
def mdSourceUrl (rootUrl : Option JStr) (slug : JStr) : JStr :=
  let baseUrl := '/' :: stripLeadingSlashes slug
  if optTruthy rootUrl then optVal rootUrl ++ baseUrl else baseUrl

/-- The `<h1>${title}</h1>` / `<h2>${subtitle}</h2>` prepend (lines
128–143) as it comes back out of the fragment re-parse. -/
def withFrontmatterHeadings (fm : Frontmatter) (bodyElems : List DomElement) :
    List DomElement :=
  (if optTruthy fm.title then [⟨['H', '1'], optVal fm.title⟩] else []) ++
    (if optTruthy fm.subtitle then [⟨['H', '2'], optVal fm.subtitle⟩] else []) ++
    bodyElems

def natChars (n : Nat) : JStr := (Nat.repr n).toList

/-- The chunk assembled for one retained section (lines 188–229). -/
def mdChunkOfSection (fm : Frontmatter) (hierarchy : List JStr)
    (slug sourceUrl filePath : JStr) (sec : HeadingSection) : Chunk :=
  let chunkHtml :=
    "<h".toList ++ natChars sec.level ++ ['>'] ++ sec.heading ++
      "</h".toList ++ natChars sec.level ++ ['>', '\n'] ++
      "<p>".toList ++ sec.body ++ "</p>".toList
  let semanticParts :=
    (if optTruthy fm.subtitle then [optVal fm.subtitle] else []) ++
      (if optTruthy fm.title then [optVal fm.title] else []) ++
      [sec.heading] ++
      (if sec.body ≠ [] then [sec.body] else [])
  let metadata :=
    [("heading".toList, MetaVal.str sec.heading),
     ("url".toList, MetaVal.str sourceUrl),
     ("hierarchy".toList, MetaVal.strList hierarchy)] ++
      (if optTruthy fm.title
        then [("title".toList, MetaVal.str (optVal fm.title))] else []) ++
      (if optTruthy fm.subtitle
        then [("subtitle".toList, MetaVal.str (optVal fm.subtitle))] else []) ++
      (if optTruthy fm.description
        then [("description".toList, MetaVal.str (optVal fm.description))] else [])
  { chunk_html := chunkHtml
    tracking_id := generateTrackingId [slug, sec.heading]
    source_url := sourceUrl
    tag_set := hierarchy
    metadata := metadata
    semantic_content := List.intercalate [' '] semanticParts
    fulltext_content := sec.heading ++ ' ' :: sec.body
    weight := some (match fm.weight with
      | some w => w
      | none => if sec.level = 1 then 1.2 else 1.0)
    refresh_on_duplicate := true
    group_tracking_ids := [filePath] }

/--
`markdown.ts` `extractChunksFromMarkdown`, modelled from the point where
its effectful collaborators have produced their results:
* `fm` is the frontmatter returned by `parseFrontmatter`;
* `bodyElems` are the top-level body children of the HTML that `marked`
  rendered for the body (the title/subtitle prepend is performed here,
  mirroring the string prepend plus re-parse of the source);
* `relPath0` is the path after `normalize(relative(...)).replace(/\\/g, "/")`;
* `urlValid u = true` iff `new URL(u)` succeeds.
Files skipped by the Vue-component guard (line 113–120) and read errors
contribute `[]` upstream of this function.
-/
def extractChunksFromMarkdown (urlValid : JStr → Bool) (fm : Frontmatter)
    (bodyElems : List DomElement) (relPath0 : JStr) (rootUrl : Option JStr)
    (filePath : JStr) : List Chunk :=
  let relativePath := mdRelativePath relPath0
  let slug := mdSlug fm relativePath
  let sourceUrl := mdSourceUrl rootUrl slug
  if optTruthy rootUrl && !(urlValid sourceUrl) then []
  else
    ((splitIntoSections (withFrontmatterHeadings fm bodyElems)).filter
        (fun s => s.heading ≠ [])).map
      (mdChunkOfSection fm (extractHierarchy relativePath) slug sourceUrl filePath)

/-- One operation object of a dereferenced OpenAPI spec
(`openapi.ts` `interface OpenAPIPath`). -/
structure OpenApiOperation where
  operationId : Option JStr := none
  summary : Option JStr := none
  description : Option JStr := none
  tags : Option (List JStr) := none
deriving DecidableEq

/-- A dereferenced OpenAPI spec: the `paths` object as an ordered list
of `(path, method-keyed operations)`; `none` models a spec without
`paths`. -/
structure OpenApiSpec where
  paths : Option (List (JStr × List (JStr × OpenApiOperation)))
deriving DecidableEq

def jsToLower (s : JStr) : JStr := s.map Char.toLower

def jsToUpper (s : JStr) : JStr := s.map Char.toUpper

def httpMethods : List JStr :=
  ["get".toList, "post".toList, "put".toList, "patch".toList,
   "delete".toList, "options".toList, "head".toList]

/-- `siteUrl?.replace(/\/+$/, "")`. -/
def stripTrailingSlashes (s : JStr) : JStr :=
  (s.reverse.dropWhile (fun c => c = '/')).reverse

/-- The chunk assembled for one `(path, method, operation)` triple
(`openapi.ts` lines 101–181).  `pluralizeFn` is the external
`pluralize` package. -/
def openApiChunk (pluralizeFn : JStr → JStr) (siteUrl : Option JStr)
    (apiRefParent : Option JStr) (path method : JStr)
    (op : OpenApiOperation) : Chunk :=
  let operationId :=
    match op.operationId with
    | some oid => oid
    | none => generateTrackingId [method, path]
  let summary := op.summary.getD []
  let description := op.description.getD []
  let tags := op.tags.getD []
  let nsParts := splitOnChar ' ' (jsToLower summary)
  let namespace_ := nsParts.getD 0 []
  let parts := nsParts.drop 1
  let endpoint :=
    if namespace_ ≠ [] then
      pluralizeFn (List.intercalate ['-'] parts) ++ '/' :: namespace_
    else path
  let apiPath := match apiRefParent with | some a => a | none => "api".toList
  let normalizedSiteUrl := siteUrl.map stripTrailingSlashes
  let pageLink :=
    if optTruthy normalizedSiteUrl then
      optVal normalizedSiteUrl ++ '/' :: apiPath ++ '/' :: operationId
    else '/' :: apiPath ++ '/' :: operationId
  let hierarchyParts :=
    (splitOnChar '/' apiPath).filter (fun part => part ≠ "api-reference".toList)
  let metadata :=
    [("operation_id".toList, MetaVal.str operationId),
     ("method".toList, MetaVal.str (jsToUpper method)),
     ("path".toList, MetaVal.str path),
     ("endpoint".toList, MetaVal.str endpoint),
     ("url".toList, MetaVal.str pageLink),
     ("hierarchy".toList, MetaVal.strList (hierarchyParts ++ [operationId]))] ++
      (if summary ≠ [] then [("summary".toList, MetaVal.str summary)] else []) ++
      (if description ≠ []
        then [("description".toList, MetaVal.str description)] else []) ++
      (if 0 < tags.length
        then [("tags".toList, MetaVal.str (List.intercalate ", ".toList tags))]
        else [])
  let methodUpper := jsToUpper method
  let heading :=
    methodUpper ++ ' ' :: (if summary ≠ [] then summary else path) ++
      ' ' :: endpoint
  let chunkHtml :=
    "<h2><span class=\"openapi-method\">".toList ++ methodUpper ++
      "</span> ".toList ++ (if summary ≠ [] then summary else path) ++
      " <code>/".toList ++ endpoint ++ "</code></h2>".toList ++
      (if description ≠ []
        then "\n<p>".toList ++ cleanText description ++ "</p>".toList
        else [])
  let semanticContent :=
    List.intercalate [' '] ([heading, description].filter (fun s => s ≠ []))
  { chunk_html := chunkHtml
    tracking_id := operationId
    source_url := pageLink
    tag_set := ["openapi-route".toList, operationId, jsToLower method] ++ tags
    metadata := metadata
    semantic_content := semanticContent
    fulltext_content := semanticContent
    weight := none
    refresh_on_duplicate := true
    group_tracking_ids := [path] }

/--
`openapi.ts` `extractChunksFromOpenAPI`, modelled from the dereferenced
spec onward (fetching, JSON/YAML parsing and `$RefParser.dereference`
are external; a fetch or parse throw yields the records built so far,
which is a prefix of this result and so satisfies every per-record
property proved below).
-/
def extractChunksFromOpenAPI (pluralizeFn : JStr → JStr) (spec : OpenApiSpec)
    (siteUrl : Option JStr) (apiRefParent : Option JStr) : List Chunk :=
  match spec.paths with
  | none => []
  | some pathEntries =>
    pathEntries.flatMap (fun pe =>
      (pe.2.filter (fun kv => httpMethods.contains (jsToLower kv.1))).map
        (fun kv => openApiChunk pluralizeFn siteUrl apiRefParent pe.1 kv.1 kv.2))

/-- A JS `Map` as an association list in key-insertion order; `set` on
an existing key updates the value in place. -/
def mapSet (m : List (JStr × Chunk)) (k : JStr) (v : Chunk) :
    List (JStr × Chunk) :=
  if m.any (fun p => p.1 = k) then
    m.map (fun p => if p.1 = k then (k, v) else p)
  else m ++ [(k, v)]

/-- The CLI driver's deduplication (`markdown.ts` `main`, lines 579–581):
`Array.from(new Map(allChunks.map(c => [c.tracking_id, c])).values())`. -/
def dedupeByTrackingId (chunks : List Chunk) : List Chunk :=
  (chunks.foldl (fun m c => mapSet m c.tracking_id c) []).map Prod.snd

def toBatchesGo (batchSize : Nat) : Nat → List Chunk → List (List Chunk)
  | 0, _ => []
  | _, [] => []
  | fuel + 1, l => l.take batchSize :: toBatchesGo batchSize fuel (l.drop batchSize)

/-- The batch slicing of `uploadChunks`
(`for (let i = 0; i < chunks.length; i += batchSize)` with
`chunks.slice(i, i + batchSize)`), for a positive batch size.  The fuel
`chunks.length` suffices since every step drops at least one record. -/
def toBatches (batchSize : Nat) (chunks : List Chunk) : List (List Chunk) :=
  toBatchesGo batchSize chunks.length chunks

/-- The retry loop of `uploadChunks` for a single batch.  `sendOk n`
tells whether the `n`-th send attempt (1-based) succeeds; `retries` is
the loop counter of the source, starting at `0`.  Result: number of
send attempts made, the backoff delays awaited (in ms, in order), and
whether the batch succeeded. -/
def batchAttempts (sendOk : Nat → Bool) (maxRetries retries : Nat) :
    Nat × List Nat × Bool :=
  if sendOk (retries + 1) then (1, [], true)
  else if h : retries + 1 ≤ maxRetries then
    let r := batchAttempts sendOk maxRetries (retries + 1)
    (1 + r.1, min (1000 * 2 ^ retries) 10000 :: r.2.1, r.2.2)
  else (1, [], false)
termination_by maxRetries + 1 - retries
decreasing_by omega

/-- An HTTP response as consumed by `Korrektly.request`:
`jsonStringified` is `JSON.stringify(await response.json())` (`none`
when `json()` throws), `textBody` is `await response.text()` (`none`
when it throws). -/
structure HttpResponse where
  status : Nat
  statusText : JStr
  contentType : Option JStr
  jsonStringified : Option JStr
  textBody : Option JStr
deriving DecidableEq

/-- `response.ok`: status in the inclusive range 200–299 (Fetch spec). -/
def respOk (r : HttpResponse) : Bool := 200 ≤ r.status && r.status ≤ 299

/-- `String.prototype.includes`. -/
def jsIncludes (sub s : JStr) : Bool := s.tails.any (fun t => sub.isPrefixOf t)

/-- `contentType?.includes("application/json")` under JS truthiness. -/
def isJsonContentType (ct : Option JStr) : Bool :=
  match ct with
  | some s => jsIncludes "application/json".toList s
  | none => false

/-- The error message `Korrektly.request` builds for a non-2xx response
(`packages/sdk/src/index.ts` lines 88–103). -/
def requestErrorMessage (r : HttpResponse) : JStr :=
  let base :=
    "API request failed: ".toList ++ natChars r.status ++ ' ' :: r.statusText
  if isJsonContentType r.contentType then
    match r.jsonStringified with
    | some j => base ++ "\nError details: ".toList ++ j
    | none => base
  else
    match r.textBody with
    | some t => base ++ "\nResponse body: ".toList ++ t.take 500
    | none => base

/-- Outcome of `Korrektly.request` as seen by its caller. -/
inductive RequestOutcome where
  | ok (jsonStringified : JStr)
  | error (message : JStr)
  | otherThrow
deriving DecidableEq

/-- `contentType` as interpolated into a template literal (`null` when
the header is absent). -/
def ctDisplay : Option JStr → JStr
  | some s => s
  | none => "null".toList

/-- `Korrektly.request` from the response onward (lines 88–116):
non-2xx throws the detailed error; a 2xx non-JSON response throws the
protocol-violation error; a 2xx JSON response resolves with the body.
`otherThrow` is an exception from `json()`/`text()` escaping unwrapped
on the success path. -/
def requestResult (r : HttpResponse) : RequestOutcome :=
  if !(respOk r) then .error (requestErrorMessage r)
  else if !(isJsonContentType r.contentType) then
    match r.textBody with
    | some t =>
      .error ("Expected JSON response but got ".toList ++
        ctDisplay r.contentType ++ ".\nResponse body: ".toList ++ t.take 500)
    | none => .otherThrow
  else
    match r.jsonStringified with
    | some j => .ok j
    | none => .otherThrow

/-- `String.prototype.replace(/lit/g, rep)` for a literal pattern:
split on the pattern and re-join with the replacement. -/
def jsReplaceAll (target rep s : JStr) : JStr :=
  List.intercalate rep (jsSplit target s)

/-- The regex source built by `isIgnored` for a wildcard pattern:
`.replace(/\./g, "\\.").replace(/\*\*/g, ".*").replace(/\*/g, "[^/]*")`. -/
def regexCompile (p : JStr) : JStr :=
  jsReplaceAll ['*'] "[^/]*".toList
    (jsReplaceAll ['*', '*'] ".*".toList
      (jsReplaceAll ['.'] "\\.".toList p))

/-- The parent-segment / path-prefix loop of `isIgnored`
(utils.ts lines 125–138): any path segment equal to the pattern, or any
segment-prefix join equal to it. -/
def segmentMatch (relativePath cleanPattern : JStr) : Bool :=
  let parts := splitOnChar '/' relativePath
  (List.range parts.length).any (fun i =>
    parts.getD i [] == cleanPattern ||
    List.intercalate ['/'] (parts.take (i + 1)) == cleanPattern)

/-- `utils.ts` `isIgnored`'s per-pattern test (the body of the
`for (const pattern of patterns)` loop, lines 81–139).  The host regex
engine is external and passed in as `regexTest src s`, standing for
`new RegExp("^" + src + "$").test(s)`; `none` models the `RegExp`
constructor throwing a `SyntaxError` on an invalid compiled source.
Result: `some true` for a `return true` path, `some false` when the
loop falls through to the next pattern, `none` when a throw escapes.
Negation patterns fall through every condition. -/
def patternMatches (regexTest : JStr → JStr → Option Bool)
    (relativePath pattern : JStr) : Option Bool :=
  if pattern.head? = some '!' then some false
  else
    let cleanPattern := if pattern.head? = some '/' then pattern.drop 1 else pattern
    if (relativePath == cleanPattern) ||
        ((cleanPattern ++ ['/']).isPrefixOf relativePath) ||
        ((pattern.getLast? == some '/') && cleanPattern.isPrefixOf relativePath)
    then some true
    else if cleanPattern.contains '*' then
      match regexTest (regexCompile cleanPattern) relativePath with
      | none => none
      | some true => some true
      | some false =>
        match regexTest (regexCompile cleanPattern ++ "/.*".toList)
            relativePath with
        | none => none
        | some true => some true
        | some false => some (segmentMatch relativePath cleanPattern)
    else some (segmentMatch relativePath cleanPattern)

/-- `utils.ts` `isIgnored(relativePath, patterns)`: the pattern loop
with early `return true`; a `SyntaxError` thrown while compiling a
wildcard pattern propagates to the caller (`none`). -/
def isIgnored (regexTest : JStr → JStr → Option Bool) (relativePath : JStr) :
    List JStr → Option Bool
  | [] => some false
  | pat :: pats =>
    match patternMatches regexTest relativePath pat with
    | none => none
    | some true => some true
    | some false => isIgnored regexTest relativePath pats

/-- The host-engine fragment consulted by the C8 counterexample: the
gitignore pattern `(*` compiles to the source `([^/]*`, and
`new RegExp("^([^/]*$")` throws a `SyntaxError` (unterminated group),
modelled as `none`; no other compiled source is consulted there. -/
def throwingRegexOracle (src : JStr) (_s : JStr) : Option Bool :=
  if src == "([^/]*".toList then none else some false

/-- The body text accumulated over a run of non-heading elements. -/
def accBody (es : List DomElement) : JStr :=
  es.foldl (fun b e => appendBody b e.textContent) []

/-- A default chunk, used as the fallback of `List.getD` in witnesses. -/
def sampleChunk (id : JStr) : Chunk :=
  { chunk_html := [], tracking_id := id, source_url := [], tag_set := [],
    metadata := [], semantic_content := [], fulltext_content := [],
    weight := none, refresh_on_duplicate := true, group_tracking_ids := [] }

/-- Key-insertion-order evolution of a JS `Map`'s key list. -/
def keysFold (ks ids : List JStr) : List JStr :=
  ids.foldl (fun acc k => if k ∈ acc then acc else acc ++ [k]) ks

/-- The distinct elements of a list in order of first occurrence. -/
def firstDedup : List JStr → List JStr
  | [] => []
  | k :: ks => k :: (firstDedup ks).filter (fun x => decide (x ≠ k))

/-- Lookup in the association-list model of a JS `Map`. -/
def alookup (k : JStr) : List (JStr × Chunk) → Option Chunk
  | [] => none
  | p :: ps => if p.1 = k then some p.2 else alookup k ps

/-! ## Claim C6: retry/backoff of `uploadChunks` -/

/-- **C6.** In `uploadChunks`, for every batch whose send fails on
attempts 1 and 2 and succeeds on attempt 3 (with `maxRetries = 3`),
exactly 3 send attempts and exactly 2 backoff delays occur; the k-th
delay equals `min(1000 * 2^(k-1), 10000)` ms, so the second delay is ≥
the first and no delay exceeds 10000 ms. -/
theorem uploadChunks_retry_backoff (sendOk : Nat → Bool)
    (h1 : sendOk 1 = false) (h2 : sendOk 2 = false) (h3 : sendOk 3 = true) :
    batchAttempts sendOk 3 0 =
      (3, [min (1000 * 2 ^ 0) 10000, min (1000 * 2 ^ 1) 10000], true) ∧
    batchAttempts sendOk 3 0 = (3, [1000, 2000], true) ∧
    1000 ≤ 2000 ∧
    ∀ d ∈ (batchAttempts sendOk 3 0).2.1, d ≤ 10000 := by
  have e : batchAttempts sendOk 3 0 = (3, [1000, 2000], true) := by
    rw [batchAttempts, h1]
    rw [batchAttempts, h2]
    rw [batchAttempts, h3]
    norm_num
  refine ⟨by rw [e]; norm_num, e, by norm_num, ?_⟩
  rw [e]
  intro d hd
  simp only [List.mem_cons, List.mem_singleton, List.not_mem_nil, or_false] at hd
  rcases hd with rfl | rfl <;> norm_num

/-- Witness for C6 at a concrete send oracle that fails twice then
succeeds. -/
theorem uploadChunks_retry_backoff_witness :
    batchAttempts (fun n => decide (3 ≤ n)) 3 0 =
      (3, [min (1000 * 2 ^ 0) 10000, min (1000 * 2 ^ 1) 10000], true) ∧
    batchAttempts (fun n => decide (3 ≤ n)) 3 0 = (3, [1000, 2000], true) ∧
    1000 ≤ 2000 ∧
    ∀ d ∈ (batchAttempts (fun n => decide (3 ≤ n)) 3 0).2.1, d ≤ 10000 :=
  uploadChunks_retry_backoff (fun n => decide (3 ≤ n)) rfl rfl rfl

/-! ## Claim C9: API client error details -/

/-- **C9.** For every non-2xx HTTP response received by the API
client's `request` method: the raised error carries the built message;
if the response has status 404 and a non-JSON body, the message
contains `"404"` and the response's status text; if the failing
response's content-type is JSON, the message includes the serialized
parsed response body. -/
theorem request_error_details (r : HttpResponse) (hok : respOk r = false) :
    requestResult r = .error (requestErrorMessage r) ∧
    (r.status = 404 → isJsonContentType r.contentType = false →
      "404".toList <:+: requestErrorMessage r ∧
        r.statusText <:+: requestErrorMessage r) ∧
    (∀ j, isJsonContentType r.contentType = true → r.jsonStringified = some j →
      j <:+: requestErrorMessage r) := by
  refine ⟨by simp [requestResult, hok], ?_, ?_⟩
  · intro h404 hct
    have htail : ∃ tail, requestErrorMessage r =
        ("API request failed: ".toList ++ natChars r.status ++
          ' ' :: r.statusText) ++ tail := by
      unfold requestErrorMessage
      rw [hct]
      cases r.textBody with
      | none => exact ⟨[], by simp⟩
      | some t => exact ⟨"\nResponse body: ".toList ++ t.take 500, by simp⟩
    obtain ⟨tail, ht⟩ := htail
    rw [ht, h404]
    have h404s : natChars 404 = "404".toList := rfl
    constructor
    · refine ⟨"API request failed: ".toList, ' ' :: r.statusText ++ tail, ?_⟩
      rw [h404s]
      simp
    · refine ⟨"API request failed: ".toList ++ natChars 404 ++ [' '], tail, ?_⟩
      simp
  · intro j hct hj
    unfold requestErrorMessage
    rw [hct, hj]
    exact ⟨"API request failed: ".toList ++ natChars r.status ++
      ' ' :: r.statusText ++ "\nError details: ".toList, [], by simp⟩

/-- Witness for C9: a 404 text/html response and a 500 JSON response. -/
theorem request_error_details_witness :
    ("404".toList <:+: requestErrorMessage
        ⟨404, "Not Found".toList, some "text/html".toList, none,
          some "<html>oops</html>".toList⟩ ∧
      "Not Found".toList <:+: requestErrorMessage
        ⟨404, "Not Found".toList, some "text/html".toList, none,
          some "<html>oops</html>".toList⟩) ∧
    "\x7b\"error\":\"boom\"\x7d".toList <:+: requestErrorMessage
      ⟨500, "Internal Server Error".toList, some "application/json".toList,
        some "\x7b\"error\":\"boom\"\x7d".toList, none⟩ :=
  ⟨(request_error_details
      ⟨404, "Not Found".toList, some "text/html".toList, none,
        some "<html>oops</html>".toList⟩ (by decide)).2.1 rfl (by decide),
    (request_error_details
      ⟨500, "Internal Server Error".toList, some "application/json".toList,
        some "\x7b\"error\":\"boom\"\x7d".toList, none⟩ (by decide)).2.2
      "\x7b\"error\":\"boom\"\x7d".toList (by decide) rfl⟩

/-! ## Claim C2: `generateTrackingId` purity and heading sensitivity -/

theorem collapseRunsAux_append (p : Char → Bool) (rep c : Char)
    (hc : p c = false) (xs ys : JStr) :
    ∀ flag, collapseRunsAux p rep flag (xs ++ c :: ys)
      = collapseRunsAux p rep flag xs ++ c :: collapseRunsAux p rep false ys := by
  induction xs with
  | nil => intro flag; simp [collapseRunsAux, hc]
  | cons x xs ih =>
    intro flag
    by_cases hx : p x <;> cases flag <;>
      simp [collapseRunsAux, hx, ih]

theorem gtidNormalize_append_dash (xs ys : JStr) :
    gtidNormalize (xs ++ '-' :: ys) = gtidNormalize xs ++ '-' :: gtidNormalize ys := by
  unfold gtidNormalize collapseRuns
  rw [collapseRunsAux_append isJsWs '-' '-' (by decide) xs ys false]
  simp [List.filter_append, isIdKeep]

theorem intercalate_two (s a b : JStr) :
    List.intercalate s [a, b] = a ++ s ++ b := by
  simp [List.intercalate, List.intersperse]

/-- **C2 (as stated) is false**: two different headings that agree after
the id normalization collide for the same base. -/
theorem generateTrackingId_heading_collision :
    "Heading!".toList ≠ "Heading?".toList ∧
    generateTrackingId ["base".toList, "Heading!".toList]
      = generateTrackingId ["base".toList, "Heading?".toList] := by
  decide

/-- **C2 (amended).** `generateTrackingId` is a pure function of its
ordered arguments (identical inputs give identical ids), and for every
base the headings `"Heading 1"` and `"Heading 2"` produce different
ids.  (Distinct headings in general may collide once normalization
erases their difference — see the counterexample.) -/
theorem generateTrackingId_pure_heading12 (base : JStr) :
    generateTrackingId [base, "Heading 1".toList]
      = generateTrackingId [base, "Heading 1".toList] ∧
    generateTrackingId [base, "Heading 1".toList]
      ≠ generateTrackingId [base, "Heading 2".toList] := by
  refine ⟨rfl, ?_⟩
  by_cases hb : base = []
  · subst hb; decide
  · unfold generateTrackingId
    have hf1 : List.filter (fun p => decide (p ≠ [])) [base, "Heading 1".toList]
        = [base, "Heading 1".toList] := by
      simp [List.filter, hb]
    have hf2 : List.filter (fun p => decide (p ≠ [])) [base, "Heading 2".toList]
        = [base, "Heading 2".toList] := by
      simp [List.filter, hb]
    rw [hf1, hf2, intercalate_two, intercalate_two]
    have e1 : base ++ ['-'] ++ "Heading 1".toList = base ++ '-' :: "Heading 1".toList := by
      simp
    have e2 : base ++ ['-'] ++ "Heading 2".toList = base ++ '-' :: "Heading 2".toList := by
      simp
    rw [e1, e2, gtidNormalize_append_dash, gtidNormalize_append_dash]
    intro heq
    have htails := List.append_cancel_left heq
    have : gtidNormalize "Heading 1".toList = gtidNormalize "Heading 2".toList := by
      exact List.tail_eq_of_cons_eq htails
    revert this
    decide

/-- Witness for C2 at a concrete base slug. -/
theorem generateTrackingId_pure_heading12_witness :
    generateTrackingId ["docs/guide".toList, "Heading 1".toList]
      = generateTrackingId ["docs/guide".toList, "Heading 1".toList] ∧
    generateTrackingId ["docs/guide".toList, "Heading 1".toList]
      ≠ generateTrackingId ["docs/guide".toList, "Heading 2".toList] :=
  generateTrackingId_pure_heading12 "docs/guide".toList

/-! ## Claim C7: frontmatter parsing -/

theorem findSep_sound (sep : JStr) :
    ∀ s pre post, findSep sep s = some (pre, post) → pre ++ sep ++ post = s := by
  intro s
  induction s with
  | nil => intro pre post h; simp [findSep] at h
  | cons c cs ih =>
    intro pre post h
    unfold findSep at h
    split at h
    · rename_i hpre
      obtain ⟨t, ht⟩ := List.isPrefixOf_iff_prefix.mp hpre
      injection h with h'
      injection h' with h1 h2
      subst h1
      rw [← h2, ← ht]
      simp [List.drop_left]
    · revert h
      cases hfs : findSep sep cs with
      | none => intro h; simp at h
      | some pp =>
        obtain ⟨p1, p2⟩ := pp
        intro h
        injection h with h'
        injection h' with h1 h2
        subst h1 h2
        have hcs := ih p1 p2 hfs
        rw [← hcs]
        simp

theorem findSep_shrink (sep : JStr) (hsep : sep ≠ []) (s pre post : JStr)
    (h : findSep sep s = some (pre, post)) : post.length < s.length := by
  have hlen := congrArg List.length (findSep_sound sep s pre post h)
  simp [List.length_append] at hlen
  have : 0 < sep.length := List.length_pos.mpr hsep
  omega

theorem jsSplitGo_ne_nil (sep : JStr) (fuel : Nat) (s : JStr) :
    jsSplitGo sep fuel s ≠ [] := by
  cases fuel with
  | zero => simp [jsSplitGo]
  | succ fuel =>
    unfold jsSplitGo
    cases h : findSep sep s with
    | none => simp
    | some pp => simp

theorem intercalate_cons_of_ne_nil (s a : JStr) (l : List JStr) (hl : l ≠ []) :
    List.intercalate s (a :: l) = a ++ s ++ List.intercalate s l := by
  cases l with
  | nil => exact absurd rfl hl
  | cons b t => simp [List.intercalate, List.intersperse]

theorem jsSplitGo_join (sep : JStr) (hsep : sep ≠ []) :
    ∀ fuel s, s.length < fuel →
      List.intercalate sep (jsSplitGo sep fuel s) = s := by
  intro fuel
  induction fuel with
  | zero => intro s hs; omega
  | succ fuel ih =>
    intro s hs
    unfold jsSplitGo
    cases h : findSep sep s with
    | none => simp [List.intercalate, List.intersperse]
    | some pp =>
      obtain ⟨pre, post⟩ := pp
      rw [intercalate_cons_of_ne_nil sep pre _ (jsSplitGo_ne_nil sep fuel post)]
      rw [ih post (by have := findSep_shrink sep hsep s pre post h; omega)]
      exact findSep_sound sep s pre post h

/-- **C7.** `parseFrontmatter` splits on the three-hyphen delimiter
(the parts rejoin to the original input); when at least three parts
result, the first delimited segment is handed to the YAML parser and
the remaining segments are rejoined as the body; when the YAML parse
fails, or fewer than three parts result, it returns empty metadata with
the original full input as the body (it is total, hence never
throws). -/
theorem parseFrontmatter_spec (yamlParse : JStr → Option Frontmatter) (s : JStr) :
    List.intercalate "---".toList (jsSplit "---".toList s) = s ∧
    (3 ≤ (jsSplit "---".toList s).length →
      parseFrontmatter yamlParse s =
        match yamlParse (jsTrim ((jsSplit "---".toList s).getD 1 [])) with
        | some fm =>
          (fm, jsTrim (List.intercalate "---".toList
            ((jsSplit "---".toList s).drop 2)))
        | none => (emptyFrontmatter, s)) ∧
    ((jsSplit "---".toList s).length < 3 →
      parseFrontmatter yamlParse s = (emptyFrontmatter, s)) := by
  refine ⟨jsSplitGo_join "---".toList (by decide) (s.length + 1) s (by omega), ?_, ?_⟩
  · intro h3
    unfold parseFrontmatter
    rw [if_pos h3]
  · intro hlt
    unfold parseFrontmatter
    rw [if_neg (by omega)]

/-- Witness for C7 on a concrete document with valid frontmatter. -/
theorem parseFrontmatter_spec_witness :
    3 ≤ (jsSplit "---".toList "---\ntitle: T\n---\nBody --- tail".toList).length ∧
    parseFrontmatter
        (fun l => if l = "title: T".toList
          then some { title := some "T".toList } else none)
        "---\ntitle: T\n---\nBody --- tail".toList
      = ({ title := some "T".toList }, "Body --- tail".toList) := by
  refine ⟨by decide, ?_⟩
  rw [(parseFrontmatter_spec
    (fun l => if l = "title: T".toList
      then some { title := some "T".toList } else none)
    "---\ntitle: T\n---\nBody --- tail".toList).2.1 (by decide)]
  decide

/-! ## Claim C8: `isIgnored` determinism, order independence, negation no-op -/

theorem any_perm_eq {α : Type} (f : α → Bool) {l₁ l₂ : List α}
    (h : l₁.Perm l₂) : l₁.any f = l₂.any f := by
  cases h1 : l₁.any f with
  | true =>
    rw [List.any_eq_true] at h1
    obtain ⟨a, ha, hfa⟩ := h1
    symm
    rw [List.any_eq_true]
    exact ⟨a, h.mem_iff.mp ha, hfa⟩
  | false =>
    cases h2 : l₂.any f with
    | false => rfl
    | true =>
      rw [List.any_eq_true] at h2
      obtain ⟨a, ha, hfa⟩ := h2
      rw [List.any_eq_false] at h1
      exact absurd hfa (by simp [h1 a (h.mem_iff.mpr ha)])

theorem patternMatches_neg (regexTest : JStr → JStr → Option Bool)
    (relativePath pat : JStr) (h : pat.head? = some '!') :
    patternMatches regexTest relativePath pat = some false := by
  unfold patternMatches
  rw [if_pos h]

/-- On a pattern list that makes no regex constructor throw,
`isIgnored` is the disjunction of the per-pattern tests. -/
theorem isIgnored_eq_any (regexTest : JStr → JStr → Option Bool) (p : JStr) :
    ∀ P : List JStr,
      (∀ pat ∈ P, patternMatches regexTest p pat ≠ none) →
      isIgnored regexTest p P
        = some (P.any
            (fun pat => patternMatches regexTest p pat == some true)) := by
  intro P
  induction P with
  | nil => intro _; rfl
  | cons pat pats ih =>
    intro h
    simp only [isIgnored, List.any_cons]
    cases hpm : patternMatches regexTest p pat with
    | none => exact absurd hpm (h pat (by simp))
    | some b =>
      cases b with
      | true => simp
      | false =>
        simp only [Option.some.injEq, Bool.false_eq_true, decide_False,
          Bool.false_or]
        exact ih (fun q hq => h q (by simp [hq]))

/-- **C8 (as stated) is false**: with the host regex engine behaving as
JS does on the single compiled source involved — the gitignore pattern
`(*` compiles to `([^/]*`, and `new RegExp("^([^/]*$")` throws — the
two orders of the same pattern set give `true` and a thrown error. -/
theorem isIgnored_order_dependent_counterexample :
    (["a".toList, "(*".toList] : List JStr).Perm ["(*".toList, "a".toList] ∧
    isIgnored throwingRegexOracle "a".toList ["a".toList, "(*".toList]
      = some true ∧
    isIgnored throwingRegexOracle "a".toList ["(*".toList, "a".toList]
      = none := by
  decide

/-- **C8 (amended).** `isIgnored` is deterministic; it is invariant
under every permutation of the pattern list whenever no pattern in the
list makes the regex constructor throw; and inserting a negation
pattern (leading `!`) anywhere never changes the result, throwing
patterns present or not.  As stated the claim fails: a wildcard
pattern whose compiled regex is syntactically invalid (such as `(*`)
makes `isIgnored` throw, and whether the call throws or returns `true`
depends on the order of the list — see the counterexample. -/
theorem isIgnored_perm_invariant_of_no_throw
    (regexTest : JStr → JStr → Option Bool) (p : JStr) (P Q : List JStr)
    (hperm : P.Perm Q)
    (hnothrow : ∀ pat ∈ P, patternMatches regexTest p pat ≠ none) :
    isIgnored regexTest p P = isIgnored regexTest p P ∧
    isIgnored regexTest p P = isIgnored regexTest p Q ∧
    (∀ pre post neg, neg.head? = some '!' →
      isIgnored regexTest p (pre ++ neg :: post)
        = isIgnored regexTest p (pre ++ post)) := by
  refine ⟨rfl, ?_, ?_⟩
  · have hQ : ∀ pat ∈ Q, patternMatches regexTest p pat ≠ none :=
      fun pat hpat => hnothrow pat (hperm.mem_iff.mpr hpat)
    rw [isIgnored_eq_any regexTest p P hnothrow,
      isIgnored_eq_any regexTest p Q hQ]
    exact congrArg some (any_perm_eq _ hperm)
  · intro pre post neg hneg
    induction pre with
    | nil =>
      simp only [List.nil_append, isIgnored,
        patternMatches_neg regexTest p neg hneg]
    | cons q qs ih =>
      simp only [List.cons_append, isIgnored]
      cases hq : patternMatches regexTest p q with
      | none => rfl
      | some b =>
        cases b with
        | true => rfl
        | false => exact ih

/-- Witness for C8 on a concrete throw-free pattern set, its
permutation, and a negation insertion. -/
theorem isIgnored_perm_invariant_of_no_throw_witness :
    isIgnored (fun _ _ => some false) "docs/dist/index.html".toList
        ["node_modules".toList, "dist".toList]
      = isIgnored (fun _ _ => some false) "docs/dist/index.html".toList
        ["dist".toList, "node_modules".toList] ∧
    isIgnored (fun _ _ => some false) "docs/dist/index.html".toList
        ["node_modules".toList, "!dist".toList, "dist".toList]
      = isIgnored (fun _ _ => some false) "docs/dist/index.html".toList
        ["node_modules".toList, "dist".toList] :=
  ⟨(isIgnored_perm_invariant_of_no_throw (fun _ _ => some false)
      "docs/dist/index.html".toList
      ["node_modules".toList, "dist".toList]
      ["dist".toList, "node_modules".toList] (by decide) (by decide)).2.1,
    (isIgnored_perm_invariant_of_no_throw (fun _ _ => some false)
      "docs/dist/index.html".toList
      ["node_modules".toList, "dist".toList]
      ["node_modules".toList, "dist".toList] (List.Perm.refl _)
      (by decide)).2.2
      ["node_modules".toList] ["dist".toList] "!dist".toList rfl⟩

/-! ## Claim C1: section splitting on a two-heading document -/

theorem splitLoop_nonheading (pre : List DomElement)
    (hpre : ∀ e ∈ pre, isHeadingTag e.tagName = false) :
    ∀ rest curH curB curL,
      splitLoop (pre ++ rest) curH curB curL
        = splitLoop rest curH
            (pre.foldl (fun b e => appendBody b e.textContent) curB) curL := by
  induction pre with
  | nil => intro rest curH curB curL; rfl
  | cons e pre ih =>
    intro rest curH curB curL
    have he : isHeadingTag e.tagName = false := hpre e (by simp)
    simp only [List.cons_append, splitLoop, he, Bool.false_eq_true, if_false,
      List.foldl_cons]
    exact ih (fun x hx => hpre x (by simp [hx])) rest curH
      (appendBody curB e.textContent) curL

theorem splitLoop_all_nonheading (es : List DomElement)
    (hes : ∀ e ∈ es, isHeadingTag e.tagName = false) (curH curB : JStr)
    (curL : Nat) :
    splitLoop es curH curB curL
      = optFlush curH (es.foldl (fun b e => appendBody b e.textContent) curB)
          curL := by
  have := splitLoop_nonheading es hes [] curH curB curL
  rw [List.append_nil] at this
  rw [this]
  rfl

theorem splitLoop_heading (h : DomElement) (rest : List DomElement)
    (hh : isHeadingTag h.tagName = true) (curH curB : JStr) (curL : Nat) :
    splitLoop (h :: rest) curH curB curL
      = optFlush curH curB curL ++
        splitLoop rest (cleanText h.textContent) [] (headingLevelOf h.tagName) := by
  simp [splitLoop, hh]

theorem filter_optFlush_empty_heading (b : JStr) (l : Nat) :
    (optFlush [] b l).filter (fun s => s.heading ≠ []) = [] := by
  unfold optFlush
  split <;> simp

theorem filter_optFlush (h b : JStr) (l : Nat) :
    (optFlush h b l).filter (fun s => s.heading ≠ [])
      = ([⟨h, cleanText b, l⟩] : List HeadingSection).filter
          (fun s => s.heading ≠ []) := by
  unfold optFlush
  by_cases hh : h = []
  · subst hh
    split <;> simp
  · rw [if_pos (Or.inl hh)]

/-- **C1.** On a body consisting of non-heading content, a first
heading, interleaved non-heading content, a second heading and trailing
non-heading content, `splitIntoSections` returns (in document order)
the two candidate sections — heading text cleaned, body the normalized
accumulated text of the elements following the heading up to the next
heading — with content before the first heading dropped and any
empty-heading section filtered out. -/
theorem splitIntoSections_two_headings (pre mid post : List DomElement)
    (h1 h2 : DomElement)
    (hpre : ∀ e ∈ pre, isHeadingTag e.tagName = false)
    (hmid : ∀ e ∈ mid, isHeadingTag e.tagName = false)
    (hpost : ∀ e ∈ post, isHeadingTag e.tagName = false)
    (hh1 : isHeadingTag h1.tagName = true)
    (hh2 : isHeadingTag h2.tagName = true) :
    splitIntoSections (pre ++ h1 :: (mid ++ h2 :: post)) =
      ([⟨cleanText h1.textContent, cleanText (accBody mid),
          headingLevelOf h1.tagName⟩,
        ⟨cleanText h2.textContent, cleanText (accBody post),
          headingLevelOf h2.tagName⟩] : List HeadingSection).filter
        (fun s => s.heading ≠ []) := by
  unfold splitIntoSections
  rw [splitLoop_nonheading pre hpre]
  rw [splitLoop_heading h1 _ hh1]
  rw [splitLoop_nonheading mid hmid]
  rw [splitLoop_heading h2 _ hh2]
  rw [splitLoop_all_nonheading post hpost]
  simp only [List.filter_append]
  rw [filter_optFlush_empty_heading, filter_optFlush, filter_optFlush]
  unfold accBody
  rw [show ([⟨cleanText h1.textContent,
      cleanText (List.foldl (fun b e => appendBody b e.textContent) [] mid),
      headingLevelOf h1.tagName⟩,
    ⟨cleanText h2.textContent,
      cleanText (List.foldl (fun b e => appendBody b e.textContent) [] post),
      headingLevelOf h2.tagName⟩] : List HeadingSection)
    = [⟨cleanText h1.textContent,
        cleanText (List.foldl (fun b e => appendBody b e.textContent) [] mid),
        headingLevelOf h1.tagName⟩] ++
      [⟨cleanText h2.textContent,
        cleanText (List.foldl (fun b e => appendBody b e.textContent) [] post),
        headingLevelOf h2.tagName⟩] from rfl, List.filter_append]
  simp

/-- Witness for C1 on a concrete five-element body. -/
theorem splitIntoSections_two_headings_witness :
    splitIntoSections
        [⟨"P".toList, "一 preamble".toList⟩,
          ⟨"H1".toList, "  Alpha  One ".toList⟩,
          ⟨"P".toList, "a  b".toList⟩, ⟨"UL".toList, "c".toList⟩,
          ⟨"h3".toList, "Beta".toList⟩] =
      ([⟨cleanText "  Alpha  One ".toList,
          cleanText (accBody [⟨"P".toList, "a  b".toList⟩,
            ⟨"UL".toList, "c".toList⟩]),
          headingLevelOf "H1".toList⟩,
        ⟨cleanText "Beta".toList, cleanText (accBody []),
          headingLevelOf "h3".toList⟩] : List HeadingSection).filter
        (fun s => s.heading ≠ []) :=
  splitIntoSections_two_headings
    [⟨"P".toList, "一 preamble".toList⟩]
    [⟨"P".toList, "a  b".toList⟩, ⟨"UL".toList, "c".toList⟩] []
    ⟨"H1".toList, "  Alpha  One ".toList⟩ ⟨"h3".toList, "Beta".toList⟩
    (by decide) (by decide) (by decide) (by decide) (by decide)

/-! ## Claim C3: chunk weights -/

theorem splitIntoSections_filter_headings (elems : List DomElement) :
    (splitIntoSections elems).filter (fun s => s.heading ≠ [])
      = splitIntoSections elems := by
  unfold splitIntoSections
  rw [List.filter_filter]
  simp

/-- **C3 (as stated) is false**: an out-of-range frontmatter weight is
passed through unclamped, so a chunk with weight 5 is produced. -/
theorem extractChunks_weight_out_of_range :
    (extractChunksFromMarkdown (fun _ => true) { weight := some 5 }
        [⟨"H1".toList, "A".toList⟩] "a.md".toList none "a.md".toList).map
      (fun c => c.weight) = [some 5] ∧
    ¬((5 : Rat) ≤ 2) := by
  constructor
  · decide
  · norm_num

/-- **C3 (amended).** Every chunk produced by
`extractChunksFromMarkdown` has weight equal to the frontmatter weight
when present and otherwise 1.2 for a level-1 section and 1.0 for deeper
sections (positionally, one chunk per retained section); consequently,
whenever the frontmatter weight — if present — lies in `[0, 2]`, every
produced weight lies in `[0, 2]`. -/
theorem extractChunks_weight_spec (urlValid : JStr → Bool) (fm : Frontmatter)
    (bodyElems : List DomElement) (relPath0 : JStr) (rootUrl : Option JStr)
    (filePath : JStr)
    (hguard : (optTruthy rootUrl &&
      !(urlValid (mdSourceUrl rootUrl (mdSlug fm (mdRelativePath relPath0)))))
        = false)
    (hw : ∀ w, fm.weight = some w → 0 ≤ w ∧ w ≤ 2) :
    (extractChunksFromMarkdown urlValid fm bodyElems relPath0 rootUrl
        filePath).map (fun c => c.weight)
      = (splitIntoSections (withFrontmatterHeadings fm bodyElems)).map
          (fun s => some (match fm.weight with
            | some w => w
            | none => if s.level = 1 then (1.2 : Rat) else 1.0)) ∧
    ∀ c ∈ extractChunksFromMarkdown urlValid fm bodyElems relPath0 rootUrl
        filePath, ∃ w, c.weight = some w ∧ 0 ≤ w ∧ w ≤ 2 := by
  have hbody : extractChunksFromMarkdown urlValid fm bodyElems relPath0 rootUrl
      filePath
      = (splitIntoSections (withFrontmatterHeadings fm bodyElems)).map
          (mdChunkOfSection fm (extractHierarchy (mdRelativePath relPath0))
            (mdSlug fm (mdRelativePath relPath0))
            (mdSourceUrl rootUrl (mdSlug fm (mdRelativePath relPath0)))
            filePath) := by
    unfold extractChunksFromMarkdown
    simp only [hguard, Bool.false_eq_true, if_false]
    rw [splitIntoSections_filter_headings]
  constructor
  · rw [hbody, List.map_map]
    refine List.map_congr_left ?_
    intro s _
    simp [mdChunkOfSection]
  · intro c hc
    rw [hbody] at hc
    obtain ⟨s, _, rfl⟩ := List.mem_map.mp hc
    refine ⟨_, rfl, ?_⟩
    cases hwv : fm.weight with
    | some w => simpa [hwv] using hw w hwv
    | none =>
      by_cases hl : s.level = 1 <;> simp [hwv, hl] <;> norm_num

/-- Witness for C3 with an in-range frontmatter override of 2. -/
theorem extractChunks_weight_spec_witness :
    (extractChunksFromMarkdown (fun _ => true) { weight := some 2 }
        [⟨"H1".toList, "A".toList⟩] "a.md".toList none "a.md".toList).map
      (fun c => c.weight) = [some 2] ∧
    (0 : Rat) ≤ 2 ∧ (2 : Rat) ≤ 2 := by
  refine ⟨?_, by norm_num, by norm_num⟩
  rw [(extractChunks_weight_spec (fun _ => true) { weight := some 2 }
    [⟨"H1".toList, "A".toList⟩] "a.md".toList none "a.md".toList rfl
    (fun w hw => by
      injection hw with hw
      subst hw
      norm_num)).1]
  decide

/-! ## Claim C4: non-empty tracking ids -/

theorem intercalate_single (s a : JStr) : List.intercalate s [a] = a := by
  simp [List.intercalate, List.intersperse]

theorem gtid_pair_ne_nil (a b : JStr) (ha : a ≠ []) (hb : b ≠ []) :
    generateTrackingId [a, b] ≠ [] := by
  unfold generateTrackingId
  have hf : List.filter (fun p => decide (p ≠ [])) [a, b] = [a, b] := by
    simp [ha, hb]
  rw [hf, intercalate_two]
  have hcons : a ++ ['-'] ++ b = a ++ '-' :: b := by simp
  rw [hcons, gtidNormalize_append_dash]
  simp

theorem collapseRunsAux_of_none (p : Char → Bool) (rep : Char) (s : JStr)
    (hs : ∀ c ∈ s, p c = false) : ∀ flag, collapseRunsAux p rep flag s = s := by
  induction s with
  | nil => intro flag; rfl
  | cons x xs ih =>
    intro flag
    have hx : p x = false := hs x (by simp)
    simp only [collapseRunsAux, hx, Bool.false_eq_true, if_false]
    rw [ih (fun c hc => hs c (by simp [hc])) false]

theorem gtidNormalize_ne_nil (k : JStr) (hk : k ≠ [])
    (hws : ∀ c ∈ k, isJsWs c = false) (hkeep : ∀ c ∈ k, isIdKeep c = true) :
    gtidNormalize k ≠ [] := by
  unfold gtidNormalize collapseRuns
  rw [collapseRunsAux_of_none isJsWs '-' k hws false]
  rw [List.filter_eq_self.mpr (fun c hc => by simp [hkeep c hc])]
  simp [hk]

/-- A character whose `toLower` image is a lowercase ASCII letter is
neither JS whitespace nor stripped by the id character class. -/
theorem char_method_facts (c d : Char) (hlower : Char.toLower c = d)
    (hd1 : 97 ≤ d.toNat) (hd2 : d.toNat ≤ 122) :
    isJsWs c = false ∧ isIdKeep c = true := by
  unfold Char.toLower at hlower
  by_cases hc : 65 ≤ Char.toNat c ∧ Char.toNat c ≤ 90
  · constructor
    · unfold isJsWs
      simp only [Bool.or_eq_false_iff, decide_eq_false_iff_not]
      omega
    · unfold isIdKeep
      have h2 : (65 ≤ c.toNat && c.toNat ≤ 90) = true := by
        simp only [Bool.and_eq_true, decide_eq_true_eq]
        omega
      simp [h2]
  · have hcd : c = d := by
      rw [← hlower]
      simp only [ge_iff_le]
      rw [if_neg hc]
    subst hcd
    constructor
    · unfold isJsWs
      simp only [Bool.or_eq_false_iff, decide_eq_false_iff_not]
      omega
    · unfold isIdKeep
      have h1 : (97 ≤ c.toNat && c.toNat ≤ 122) = true := by
        simp only [Bool.and_eq_true, decide_eq_true_eq]
        omega
      simp [h1]

theorem method_chars_ok (k : JStr) (hmem : jsToLower k ∈ httpMethods) :
    k ≠ [] ∧ (∀ c ∈ k, isJsWs c = false) ∧ ∀ c ∈ k, isIdKeep c = true := by
  have hall : ∀ w ∈ httpMethods, ∀ d ∈ w, 97 ≤ d.toNat ∧ d.toNat ≤ 122 := by
    decide
  have hne : k ≠ [] := by
    intro hk
    subst hk
    revert hmem
    decide
  have hfacts : ∀ c ∈ k, isJsWs c = false ∧ isIdKeep c = true := by
    intro c hc
    have hmemd : Char.toLower c ∈ jsToLower k := by
      unfold jsToLower
      exact List.mem_map_of_mem Char.toLower hc
    obtain ⟨hd1, hd2⟩ := hall (jsToLower k) hmem (Char.toLower c) hmemd
    exact char_method_facts c (Char.toLower c) rfl hd1 hd2
  exact ⟨hne, fun c hc => (hfacts c hc).1, fun c hc => (hfacts c hc).2⟩

theorem gtid_method_path_ne_nil (k path : JStr)
    (hmem : jsToLower k ∈ httpMethods) :
    generateTrackingId [k, path] ≠ [] := by
  obtain ⟨hk, hws, hkeep⟩ := method_chars_ok k hmem
  by_cases hp : path = []
  · subst hp
    unfold generateTrackingId
    have hf : List.filter (fun p => decide (p ≠ [])) [k, []] = [k] := by
      simp [hk]
    rw [hf, intercalate_single]
    exact gtidNormalize_ne_nil k hk hws hkeep
  · exact gtid_pair_ne_nil k path hk hp

theorem markdown_tracking_nonempty (urlValid : JStr → Bool) (fm : Frontmatter)
    (bodyElems : List DomElement) (relPath0 : JStr) (rootUrl : Option JStr)
    (filePath : JStr) (hslug : mdSlug fm (mdRelativePath relPath0) ≠ []) :
    ∀ c ∈ extractChunksFromMarkdown urlValid fm bodyElems relPath0 rootUrl
      filePath, c.tracking_id ≠ [] := by
  intro c hc
  simp only [extractChunksFromMarkdown] at hc
  split at hc
  · simp at hc
  · obtain ⟨s, hs, rfl⟩ := List.mem_map.mp hc
    obtain ⟨-, hhead⟩ := List.mem_filter.mp hs
    show generateTrackingId [mdSlug fm (mdRelativePath relPath0), s.heading] ≠ []
    exact gtid_pair_ne_nil _ _ hslug (by simpa using hhead)

theorem openapi_tracking_nonempty (pluralizeFn : JStr → JStr)
    (spec : OpenApiSpec) (siteUrl apiRefParent : Option JStr)
    (hop : ∀ pe ∈ spec.paths.getD [], ∀ kv ∈ pe.2, kv.2.operationId ≠ some []) :
    ∀ c ∈ extractChunksFromOpenAPI pluralizeFn spec siteUrl apiRefParent,
      c.tracking_id ≠ [] := by
  intro c hc
  unfold extractChunksFromOpenAPI at hc
  cases hsp : spec.paths with
  | none => rw [hsp] at hc; simp at hc
  | some pathEntries =>
    rw [hsp] at hc
    obtain ⟨pe, hpe, hc⟩ := List.mem_flatMap.mp hc
    obtain ⟨kv, hkv, rfl⟩ := List.mem_map.mp hc
    obtain ⟨hkvmem, hmeth⟩ := List.mem_filter.mp hkv
    have hmem : jsToLower kv.1 ∈ httpMethods := by
      simpa using hmeth
    show (match kv.2.operationId with
      | some oid => oid
      | none => generateTrackingId [kv.1, pe.1]) ≠ []
    cases hoid : kv.2.operationId with
    | some oid =>
      have hnz := hop pe (by rw [hsp]; simpa using hpe) kv hkvmem
      rw [hoid] at hnz
      simpa using hnz
    | none => exact gtid_method_path_ne_nil kv.1 pe.1 hmem

/-- **C4 (as stated) is false**: an operation whose declared
`operationId` is the empty string yields a chunk whose tracking id is
empty (`?? ` only replaces `null`/`undefined`). -/
theorem pipeline_tracking_id_empty_counterexample :
    (extractChunksFromOpenAPI (fun s => s)
        ⟨some [("/x".toList,
          [("get".toList, { operationId := some [] })])]⟩
        none none).map (fun c => c.tracking_id) = [[]] := by
  decide

/-- **C4 (amended).** Every chunk produced by
`extractChunksFromMarkdown` whose computed slug is non-empty has a
non-empty tracking id (section headings are already non-empty and the
join dash survives normalization), and every chunk produced by
`extractChunksFromOpenAPI` from a spec in which no operation declares
an *empty* `operationId` has a non-empty tracking id (an absent
`operationId` falls back to the method+path id, which keeps the method
letters). -/
theorem pipeline_tracking_id_nonempty :
    (∀ (urlValid : JStr → Bool) (fm : Frontmatter)
        (bodyElems : List DomElement) (relPath0 : JStr)
        (rootUrl : Option JStr) (filePath : JStr),
      mdSlug fm (mdRelativePath relPath0) ≠ [] →
      ∀ c ∈ extractChunksFromMarkdown urlValid fm bodyElems relPath0 rootUrl
        filePath, c.tracking_id ≠ []) ∧
    (∀ (pluralizeFn : JStr → JStr) (spec : OpenApiSpec)
        (siteUrl apiRefParent : Option JStr),
      (∀ pe ∈ spec.paths.getD [], ∀ kv ∈ pe.2, kv.2.operationId ≠ some []) →
      ∀ c ∈ extractChunksFromOpenAPI pluralizeFn spec siteUrl apiRefParent,
        c.tracking_id ≠ []) :=
  ⟨markdown_tracking_nonempty, openapi_tracking_nonempty⟩

/-- Witness for C4 on a concrete markdown file and a concrete spec. -/
theorem pipeline_tracking_id_nonempty_witness :
    ((extractChunksFromMarkdown (fun _ => true) { weight := some 1 }
        [⟨"H1".toList, "A".toList⟩] "a.md".toList none "a.md".toList).getD 0
      (sampleChunk [])).tracking_id ≠ [] ∧
    ((extractChunksFromOpenAPI (fun s => s)
        ⟨some [("/users".toList,
          [("get".toList, { operationId := some "getUsers".toList })])]⟩
        none none).getD 0 (sampleChunk [])).tracking_id ≠ [] :=
  ⟨pipeline_tracking_id_nonempty.1 (fun _ => true) { weight := some 1 }
      [⟨"H1".toList, "A".toList⟩] "a.md".toList none "a.md".toList
      (by decide) _ (by decide),
    pipeline_tracking_id_nonempty.2 (fun s => s)
      ⟨some [("/users".toList,
        [("get".toList, { operationId := some "getUsers".toList })])]⟩
      none none (by decide) _ (by decide)⟩

/-! ## Claims C5 and C10: deduplication by tracking id -/

theorem mapSet_keys (m : List (JStr × Chunk)) (k : JStr) (v : Chunk) :
    (mapSet m k v).map Prod.fst =
      if k ∈ m.map Prod.fst then m.map Prod.fst else m.map Prod.fst ++ [k] := by
  unfold mapSet
  by_cases h : m.any (fun p => decide (p.1 = k)) = true
  · rw [if_pos h]
    have hk : k ∈ m.map Prod.fst := by
      rw [List.any_eq_true] at h
      obtain ⟨p, hp, hpk⟩ := h
      simp only [decide_eq_true_eq] at hpk
      exact hpk ▸ List.mem_map_of_mem Prod.fst hp
    rw [if_pos hk, List.map_map]
    refine List.map_congr_left ?_
    intro p _
    by_cases hp : p.1 = k <;> simp [hp]
  · rw [if_neg h]
    have hk : k ∉ m.map Prod.fst := by
      intro hmem
      obtain ⟨p, hp, hpk⟩ := List.mem_map.mp hmem
      exact h (List.any_eq_true.mpr ⟨p, hp, by simp [hpk]⟩)
    rw [if_neg hk]
    simp

theorem foldl_mapSet_keys (chunks : List Chunk) :
    ∀ m, ((chunks.foldl (fun m c => mapSet m c.tracking_id c) m).map Prod.fst)
      = keysFold (m.map Prod.fst) (chunks.map (fun c => c.tracking_id)) := by
  induction chunks with
  | nil => intro m; rfl
  | cons c cs ih =>
    intro m
    show ((cs.foldl _ (mapSet m c.tracking_id c)).map Prod.fst) = _
    rw [ih (mapSet m c.tracking_id c)]
    rw [mapSet_keys]
    rfl

theorem keysFold_nodup (ids : List JStr) :
    ∀ ks, ks.Nodup → (keysFold ks ids).Nodup := by
  induction ids with
  | nil => intro ks h; exact h
  | cons i ids ih =>
    intro ks h
    show (keysFold (if i ∈ ks then ks else ks ++ [i]) ids).Nodup
    by_cases hi : i ∈ ks
    · rw [if_pos hi]; exact ih ks h
    · rw [if_neg hi]
      refine ih (ks ++ [i]) ?_
      simp [List.nodup_append, h, hi]

theorem keysFold_mem (ids : List JStr) :
    ∀ ks k, k ∈ keysFold ks ids ↔ k ∈ ks ∨ k ∈ ids := by
  induction ids with
  | nil => intro ks k; simp [keysFold]
  | cons i ids ih =>
    intro ks k
    show k ∈ keysFold (if i ∈ ks then ks else ks ++ [i]) ids ↔ _
    rw [ih]
    by_cases hi : i ∈ ks
    · rw [if_pos hi]
      simp only [List.mem_cons]
      constructor
      · rintro (h | h)
        · exact Or.inl h
        · exact Or.inr (Or.inr h)
      · rintro (h | rfl | h)
        · exact Or.inl h
        · exact Or.inl hi
        · exact Or.inr h
    · rw [if_neg hi]
      simp only [List.mem_append, List.mem_singleton, List.mem_cons]
      tauto

theorem keysFold_eq (ids : List JStr) :
    ∀ ks, keysFold ks ids
      = ks ++ (firstDedup ids).filter (fun x => decide (x ∉ ks)) := by
  induction ids with
  | nil => intro ks; simp [keysFold, firstDedup]
  | cons i ids ih =>
    intro ks
    show keysFold (if i ∈ ks then ks else ks ++ [i]) ids = _
    unfold firstDedup
    by_cases hi : i ∈ ks
    · rw [if_pos hi, ih ks]
      congr 1
      rw [List.filter_cons_of_neg (by simp [hi])]
      rw [List.filter_filter]
      refine (List.filter_congr ?_).symm
      intro x _
      by_cases hx : x ∈ ks
      · simp [hx]
      · have hxi : x ≠ i := fun he => hx (he ▸ hi)
        simp [hx, hxi]
    · rw [if_neg hi, ih (ks ++ [i]), List.append_assoc]
      congr 1
      rw [List.filter_cons_of_pos (by simp [hi])]
      show [i] ++ _ = [i] ++ _
      congr 1
      rw [List.filter_filter]
      refine List.filter_congr ?_
      intro x _
      by_cases hx1 : x ∈ ks <;> by_cases hx2 : x = i <;>
        simp [List.mem_append, hx1, hx2]

theorem alookup_append (k : JStr) (m1 m2 : List (JStr × Chunk)) :
    alookup k (m1 ++ m2) = (alookup k m1).or (alookup k m2) := by
  induction m1 with
  | nil => simp [alookup]
  | cons p ps ih =>
    by_cases hp : p.1 = k <;> simp [alookup, hp, ih]

theorem alookup_eq_none (m : List (JStr × Chunk)) (k : JStr)
    (h : m.any (fun p => decide (p.1 = k)) = false) : alookup k m = none := by
  induction m with
  | nil => rfl
  | cons p ps ih =>
    simp only [List.any_cons, Bool.or_eq_false_iff] at h
    unfold alookup
    rw [if_neg (by simpa using h.1)]
    exact ih h.2

theorem alookup_map_update (k k' : JStr) (v : Chunk) (h : k' ≠ k) :
    ∀ m : List (JStr × Chunk),
      alookup k' (m.map (fun p => if p.1 = k then (k, v) else p))
        = alookup k' m := by
  intro m
  induction m with
  | nil => rfl
  | cons p ps ih =>
    by_cases hp : p.1 = k
    · simp only [List.map_cons, if_pos hp]
      unfold alookup
      rw [if_neg (by simpa using (Ne.symm h)), if_neg (by rw [hp]; exact Ne.symm h)]
      exact ih
    · simp only [List.map_cons, if_neg hp]
      unfold alookup
      by_cases hp' : p.1 = k' <;> simp [hp', ih]

theorem alookup_mapSet_self (m : List (JStr × Chunk)) (k : JStr) (v : Chunk) :
    alookup k (mapSet m k v) = some v := by
  unfold mapSet
  by_cases h : m.any (fun p => decide (p.1 = k)) = true
  · rw [if_pos h]
    induction m with
    | nil => simp at h
    | cons p ps ih =>
      by_cases hp : p.1 = k
      · simp only [List.map_cons, if_pos hp]
        unfold alookup
        rw [if_pos rfl]
      · simp only [List.map_cons, if_neg hp]
        unfold alookup
        rw [if_neg hp]
        refine ih ?_
        simp only [List.any_cons, Bool.or_eq_true] at h
        rcases h with h | h
        · exact absurd (by simpa using h) hp
        · exact h
  · rw [if_neg h]
    rw [alookup_append]
    rw [alookup_eq_none m k (Bool.eq_false_iff.mpr h)]
    simp [alookup]

theorem alookup_mapSet_ne (m : List (JStr × Chunk)) (k k' : JStr) (v : Chunk)
    (h : k' ≠ k) : alookup k' (mapSet m k v) = alookup k' m := by
  unfold mapSet
  split
  · exact alookup_map_update k k' v h m
  · rw [alookup_append]
    have : alookup k' [(k, v)] = none := by
      unfold alookup
      rw [if_neg (Ne.symm h)]
      rfl
    rw [this, Option.or_none]

theorem foldl_mapSet_alookup (chunks : List Chunk) :
    ∀ m k, alookup k (chunks.foldl (fun m c => mapSet m c.tracking_id c) m)
      = ((chunks.filter (fun c => decide (c.tracking_id = k))).getLast?).or
          (alookup k m) := by
  induction chunks with
  | nil => intro m k; simp
  | cons c cs ih =>
    intro m k
    show alookup k (cs.foldl _ (mapSet m c.tracking_id c)) = _
    rw [ih (mapSet m c.tracking_id c) k]
    by_cases hck : c.tracking_id = k
    · rw [hck, alookup_mapSet_self]
      rw [List.filter_cons_of_pos (by simp [hck])]
      have hcons : ∀ (l : List Chunk) (a : Chunk),
          (a :: l).getLast? = l.getLast?.or (some a) := by
        intro l
        induction l with
        | nil => intro a; rfl
        | cons b t ih =>
          intro a
          rw [List.getLast?_cons_cons, ih b, Option.or_assoc, Option.or_some]
      rw [hcons (cs.filter (fun c => decide (c.tracking_id = k))) c]
      rw [Option.or_assoc]
      rfl
    · rw [alookup_mapSet_ne m c.tracking_id k c (fun he => hck he.symm)]
      rw [List.filter_cons_of_neg (by simp [hck])]

theorem foldl_mapSet_entry_fst (chunks : List Chunk) :
    ∀ m, (∀ p ∈ m, p.1 = p.2.tracking_id) →
      ∀ p ∈ chunks.foldl (fun m c => mapSet m c.tracking_id c) m,
        p.1 = p.2.tracking_id := by
  induction chunks with
  | nil => intro m hm; exact hm
  | cons c cs ih =>
    intro m hm
    refine ih (mapSet m c.tracking_id c) ?_
    intro p hp
    unfold mapSet at hp
    split at hp
    · obtain ⟨q, hq, rfl⟩ := List.mem_map.mp hp
      by_cases hqk : q.1 = c.tracking_id
      · rw [if_pos hqk]
      · rw [if_neg hqk]
        exact hm q hq
    · rcases List.mem_append.mp hp with h | h
      · exact hm p h
      · rw [List.mem_singleton.mp h]

theorem alookup_of_mem_nodup (k : JStr) (v : Chunk) :
    ∀ m : List (JStr × Chunk), (m.map Prod.fst).Nodup → (k, v) ∈ m →
      alookup k m = some v := by
  intro m
  induction m with
  | nil => intro _ h; simp at h
  | cons p ps ih =>
    intro hnd hmem
    rw [List.map_cons, List.nodup_cons] at hnd
    rcases List.mem_cons.mp hmem with rfl | hmem'
    · unfold alookup
      rw [if_pos rfl]
    · unfold alookup
      by_cases hp : p.1 = k
      · exfalso
        exact hnd.1 (hp ▸ List.mem_map_of_mem Prod.fst hmem')
      · rw [if_neg hp]
        exact ih hnd.2 hmem'

/-- **C5.** The uploader's deduplication produces a list in which each
tracking id occurs exactly once — its length equals the number of
distinct tracking ids in the input — and the record retained for a
given tracking id is the last occurrence in input iteration order. -/
theorem dedupe_last_wins (chunks : List Chunk) :
    ((dedupeByTrackingId chunks).map (fun c => c.tracking_id)).Nodup ∧
    (dedupeByTrackingId chunks).length
      = (chunks.map (fun c => c.tracking_id)).toFinset.card ∧
    ∀ c ∈ dedupeByTrackingId chunks,
      (chunks.filter (fun x => decide (x.tracking_id = c.tracking_id))).getLast?
        = some c := by
  have hfst := foldl_mapSet_entry_fst chunks [] (by simp)
  have hkeys := foldl_mapSet_keys chunks []
  simp only [List.map_nil] at hkeys
  have hmap : (dedupeByTrackingId chunks).map (fun c => c.tracking_id)
      = keysFold [] (chunks.map (fun c => c.tracking_id)) := by
    unfold dedupeByTrackingId
    rw [List.map_map, ← hkeys]
    exact (List.map_congr_left (fun p hp => (hfst p hp).symm))
  have hnodup : ((dedupeByTrackingId chunks).map
      (fun c => c.tracking_id)).Nodup := by
    rw [hmap]
    exact keysFold_nodup _ [] List.nodup_nil
  refine ⟨hnodup, ?_, ?_⟩
  · have hlen : (dedupeByTrackingId chunks).length
        = (keysFold [] (chunks.map (fun c => c.tracking_id))).length := by
      rw [← hmap, List.length_map]
    rw [hlen]
    have hnd := keysFold_nodup (chunks.map (fun c => c.tracking_id)) []
      List.nodup_nil
    rw [← List.toFinset_card_of_nodup hnd]
    congr 1
    refine Finset.ext ?_
    intro a
    simp only [List.mem_toFinset]
    rw [keysFold_mem]
    simp
  · intro c hc
    unfold dedupeByTrackingId at hc
    obtain ⟨p, hp, rfl⟩ := List.mem_map.mp hc
    have hkey := hfst p hp
    have hmemkv : (p.2.tracking_id, p.2) ∈
        chunks.foldl (fun m c => mapSet m c.tracking_id c) [] := by
      rw [← hkey]
      exact hp
    have hnd : ((chunks.foldl (fun m c => mapSet m c.tracking_id c) []).map
        Prod.fst).Nodup := by
      rw [hkeys]
      exact keysFold_nodup _ [] List.nodup_nil
    have hlook := alookup_of_mem_nodup p.2.tracking_id p.2 _ hnd hmemkv
    rw [foldl_mapSet_alookup chunks [] p.2.tracking_id] at hlook
    simpa [alookup, Option.or_none] using hlook

/-- **C10.** The deduplicated list keeps tracking ids in order of their
first occurrence in the combined input (JS `Map` insertion-order
semantics) even though the record kept per id is its last occurrence,
and the uploader's batches partition exactly that list in that order. -/
theorem dedupe_first_occurrence_order (chunks : List Chunk) (batchSize : Nat)
    (hbs : 0 < batchSize) :
    (dedupeByTrackingId chunks).map (fun c => c.tracking_id)
      = firstDedup (chunks.map (fun c => c.tracking_id)) ∧
    (toBatches batchSize (dedupeByTrackingId chunks)).flatten
      = dedupeByTrackingId chunks := by
  constructor
  · have hfst := foldl_mapSet_entry_fst chunks [] (by simp)
    have hkeys := foldl_mapSet_keys chunks []
    simp only [List.map_nil] at hkeys
    have hmap : (dedupeByTrackingId chunks).map (fun c => c.tracking_id)
        = keysFold [] (chunks.map (fun c => c.tracking_id)) := by
      unfold dedupeByTrackingId
      rw [List.map_map, ← hkeys]
      exact (List.map_congr_left (fun p hp => (hfst p hp).symm))
    rw [hmap, keysFold_eq]
    simp
  · have hgo : ∀ fuel (l : List Chunk), l.length ≤ fuel →
        (toBatchesGo batchSize fuel l).flatten = l := by
      intro fuel
      induction fuel with
      | zero =>
        intro l hl
        have hnil : l = [] := List.length_eq_zero.mp (Nat.le_zero.mp hl)
        subst hnil
        rfl
      | succ fuel ih =>
        intro l hl
        cases l with
        | nil => rfl
        | cons c rest =>
          show (List.take batchSize (c :: rest) ::
            toBatchesGo batchSize fuel (List.drop batchSize (c :: rest))).flatten
            = c :: rest
          rw [List.flatten_cons]
          rw [ih (List.drop batchSize (c :: rest)) (by
            rw [List.length_drop]
            simp only [List.length_cons] at hl ⊢
            omega)]
          exact List.take_append_drop batchSize (c :: rest)
    exact hgo (dedupeByTrackingId chunks).length (dedupeByTrackingId chunks)
      (le_refl _)

/-- Witness for C5 on a concrete list with a duplicated tracking id:
the record retained for id `"a"` is the later occurrence. -/
theorem dedupe_last_wins_witness :
    ((dedupeByTrackingId [sampleChunk "a".toList, sampleChunk "b".toList,
        { sampleChunk "a".toList with source_url := "/x".toList }]).map
      (fun c => c.tracking_id)).Nodup ∧
    ([sampleChunk "a".toList, sampleChunk "b".toList,
        { sampleChunk "a".toList with source_url := "/x".toList }].filter
      (fun x => decide (x.tracking_id =
        ((dedupeByTrackingId [sampleChunk "a".toList, sampleChunk "b".toList,
          { sampleChunk "a".toList with source_url := "/x".toList }]).getD 0
            (sampleChunk [])).tracking_id))).getLast?
      = some ((dedupeByTrackingId [sampleChunk "a".toList,
          sampleChunk "b".toList,
          { sampleChunk "a".toList with source_url := "/x".toList }]).getD 0
        (sampleChunk [])) :=
  ⟨(dedupe_last_wins [sampleChunk "a".toList, sampleChunk "b".toList,
      { sampleChunk "a".toList with source_url := "/x".toList }]).1,
    (dedupe_last_wins [sampleChunk "a".toList, sampleChunk "b".toList,
      { sampleChunk "a".toList with source_url := "/x".toList }]).2.2 _
      (by decide)⟩

/-- Witness for C10 on a concrete duplicate-bearing list. -/
theorem dedupe_first_occurrence_order_witness :
    (dedupeByTrackingId [sampleChunk "a".toList, sampleChunk "b".toList,
        sampleChunk "a".toList]).map (fun c => c.tracking_id)
      = firstDedup ([sampleChunk "a".toList, sampleChunk "b".toList,
          sampleChunk "a".toList].map (fun c => c.tracking_id)) ∧
    (toBatches 1 (dedupeByTrackingId [sampleChunk "a".toList,
        sampleChunk "b".toList, sampleChunk "a".toList])).flatten
      = dedupeByTrackingId [sampleChunk "a".toList, sampleChunk "b".toList,
          sampleChunk "a".toList] :=
  dedupe_first_occurrence_order
    [sampleChunk "a".toList, sampleChunk "b".toList, sampleChunk "a".toList]
    1 (by decide)

/-! Conformance of the embedding with the repository's unit tests
(`index.test.ts`). -/

theorem cleanText_unit_test :
    cleanText "  Hello   world  \n  test  ".toList = "Hello world test".toList ∧
    cleanText "   \n   \t   ".toList = [] := by
  decide

theorem extractHierarchy_unit_test :
    extractHierarchy "docs/guide/getting-started.md".toList
      = ["docs".toList, "guide".toList, "getting-started".toList] ∧
    extractHierarchy "./docs//guide/index.md".toList
      = ["docs".toList, "guide".toList, "index".toList] ∧
    extractHierarchy "README.md".toList = ["README".toList] := by
  decide

theorem generateTrackingId_unit_test :
    generateTrackingId ["https://example.com/docs".toList, "Heading 1".toList]
      = "https//examplecom/docs-heading-1".toList := by
  decide

end Korrektly
